import Mathlib

/-!
Shallow embedding of the guqin tuning calculator: the pitch model of
`music_theory.py` (class `Note` and class `Interval`), the table builder of
`guqin_tuning_calculator.py` (class `GuqinTuningCalculator`), and the
search/navigation state of the TUI widget `position_table.py`
(class `PositionTable`) together with the command dispatch of
`main_screen.py` (class `MainScreen`).  Python machine types are modelled
with `Nat`/`Int`, Python exceptions with `Option`/`Except`, and Python
strings with Lean `String` (character lists).  Theorems about the specified
properties follow the definitions.
-/

namespace Guqin

/-- Characters accepted by the first group `[A-Ga-g]` of the pitch regex
`^([A-Ga-g])([#b♯♭]?)(-?\d+)$` in `Note._parse_note`. -/
def letterChars : List Char := ['A', 'B', 'C', 'D', 'E', 'F', 'G',
                               'a', 'b', 'c', 'd', 'e', 'f', 'g']

def isLetterAG (c : Char) : Bool := letterChars.contains c

/-- Characters accepted by the accidental group `[#b♯♭]` of the pitch regex. -/
def accChars : List Char := ['#', 'b', '♯', '♭']

def isAcc (c : Char) : Bool := accChars.contains c

/-- `Note.ACCIDENTAL_MAP`: `#` and `♯` map to `♯`, `b` and `♭` map to `♭`. -/
def mapAcc : Char → Char
  | '#' => '♯'
  | 'b' => '♭'
  | c => c

/-- `Note.NOTE_TO_SEMITONE`: letter name to semitone count, C = 0.
Lookup of a key outside the dict (a `KeyError` in Python) is `none`. -/
def NOTE_TO_SEMITONE : Char → Option Int
  | 'C' => some 0
  | 'D' => some 2
  | 'E' => some 4
  | 'F' => some 5
  | 'G' => some 7
  | 'A' => some 9
  | 'B' => some 11
  | _ => none

/-- `Note.SEMITONE_TO_NOTE`: semitone within the octave to the fixed
spelling (sharps for 1, 6, 8 is flat... exactly the Python dict). -/
def SEMITONE_TO_NOTE (n : Int) : Option String :=
  if n = 0 then some "C"
  else if n = 1 then some "C♯"
  else if n = 2 then some "D"
  else if n = 3 then some "E♭"
  else if n = 4 then some "E"
  else if n = 5 then some "F"
  else if n = 6 then some "F♯"
  else if n = 7 then some "G"
  else if n = 8 then some "A♭"
  else if n = 9 then some "A"
  else if n = 10 then some "B♭"
  else if n = 11 then some "B"
  else none

/-- Decimal digit character for a value below 10 (`'0'` has code 48). -/
def digCh (n : Nat) : Char := Char.ofNat (48 + n)

/-- Value of a decimal digit character. -/
def digVal (c : Char) : Nat := c.toNat - 48

/-- Reads a nonempty all-digit character list as a natural number;
models the `\d+` part of the octave group of the pitch regex together
with Python `int()`. -/
def readNat (cs : List Char) : Option Nat :=
  if cs = [] then none
  else if cs.all Char.isDigit then
    some (cs.foldl (fun a c => 10 * a + digVal c) 0)
  else none

/-- Reads an optionally `-`-signed digit string as an integer; models the
octave group `-?\d+` of the pitch regex together with Python `int()`. -/
def readInt (cs : List Char) : Option Int :=
  if cs.headD ' ' = '-' then (readNat cs.tail).map (fun n => -(n : Int))
  else (readNat cs).map (fun n => (n : Int))

/-- Fuelled decimal rendering; with fuel above `n` this implements the
standard most-significant-first digit expansion (the fuel only serves to
make the recursion structural, the base arm with exhausted fuel is never
reached). -/
def natStrCore : Nat → Nat → List Char
  | 0, _ => []
  | fuel + 1, n =>
    if n < 10 then [digCh n]
    else natStrCore fuel (n / 10) ++ [digCh (n % 10)]

/-- Decimal digit list of a natural number, most significant first;
models Python `str` on a nonnegative integer. -/
def natStrL (n : Nat) : List Char := natStrCore (n + 1) n

/-- Decimal character list of an integer; models Python `str(int)`. -/
def intStrL (i : Int) : List Char :=
  if i < 0 then '-' :: natStrL i.natAbs else natStrL i.toNat

/-- Decimal string of an integer; models the f-string interpolation of the
octave in `Note.get_note_name` and `Note.from_midi`. -/
def intStr (i : Int) : String := String.mk (intStrL i)

/-- The state of a Python `Note` object after `__init__`: the parsed
pitch class string (letter plus optional normalised accidental), the
octave, and the computed MIDI number (the linear pitch number). -/
structure Note where
  pitch_class : String
  octave : Int
  midi_number : Int
deriving DecidableEq, Repr

/-- `Note._parse_note` on the character list of the name: match the regex
`^([A-Ga-g])([#b♯♭]?)(-?\d+)$`, upper-case the letter, normalise the
accidental through `ACCIDENTAL_MAP`, and return (pitch class, octave).
`none` models the `ValueError` raised for a failed match. -/
def parseNoteCore : List Char → Option (String × Int)
  | [] => none
  | l :: rest =>
    if isLetterAG l then
      match rest with
      | [] => none
      | a :: rest2 =>
        if isAcc a then
          match readInt rest2 with
          | some o => some (String.mk [l.toUpper, mapAcc a], o)
          | none => none
        else
          match readInt (a :: rest2) with
          | some o => some (String.mk [l.toUpper], o)
          | none => none
    else none

def parseNote (s : String) : Option (String × Int) := parseNoteCore s.data

/-- The accidental adjustment of `Note._to_midi`: `+1` when the pitch
class contains a sharp sign, `-1` when it contains a flat sign. -/
def accAdj (pc : String) : Int :=
  if pc.length > 1 then
    if pc.data.contains '♯' || pc.data.contains '#' then 1
    else if pc.data.contains '♭' || pc.data.contains 'b' then -1
    else 0
  else 0

/-- `Note._to_midi`: base semitone of the first pitch-class character,
accidental adjustment, `midi = (octave + 1) * 12 + semitone`.  `none`
models the `KeyError`/`IndexError` possible on an ill-formed pitch class. -/
def toMidiOf (pc : String) (octave : Int) : Option Int :=
  match pc.data with
  | [] => none
  | b :: _ => (NOTE_TO_SEMITONE b).map (fun s => (octave + 1) * 12 + (s + accAdj pc))

/-- `Note(name)`: parse the name and compute the MIDI number.  `none`
models a raised exception. -/
def noteOfName (s : String) : Option Note :=
  match parseNote s with
  | none => none
  | some (pc, oct) =>
    match toMidiOf pc oct with
    | none => none
    | some m => some ⟨pc, oct, m⟩

/-- `Note.get_note_name`: pitch class followed by the octave. -/
def get_note_name (n : Note) : String := n.pitch_class ++ intStr n.octave

/-- `Note.get_base_note`: the first character of the pitch class as a
one-character string (Python `pitch_class[0]`; the pitch class produced
by parsing is never empty). -/
def get_base_note (n : Note) : String := String.mk [n.pitch_class.data.headD ' ']

/-- `Note.from_midi`: `octave = midi // 12 - 1`, `semitone = midi % 12`,
spelling from `SEMITONE_TO_NOTE`, then `Note(f"{pitch_class}{octave}")`.
Lean's `Int` `/` and `%` agree with Python's floor division and
nonnegative remainder for the positive divisor 12. -/
def fromMidi (m : Int) : Option Note :=
  match SEMITONE_TO_NOTE (m % 12) with
  | none => none
  | some pc => noteOfName (pc ++ intStr (m / 12 - 1))

/-- `Note.transpose`: build a new note from `midi_number + semitones`. -/
def transpose (n : Note) (s : Int) : Option Note := fromMidi (n.midi_number + s)

/-- `Interval.INTERVAL_MAP`: interval name to semitone count. -/
def INTERVAL_MAP : List (String × Int) :=
  [("大十七度", 28), ("大十六度", 26), ("十五度", 24), ("大十三度", 21),
   ("纯十二度", 19), ("纯十一度", 17), ("大十度", 16), ("小十度", 15),
   ("大九度", 14), ("八度", 12), ("大七度", 11), ("小七度", 10),
   ("大六度", 9), ("小六度", 8), ("纯五度", 7), ("纯四度", 5),
   ("大三度", 4), ("小三度", 3), ("大二度", 2), ("小二度", 1),
   ("纯二十二度", 36), ("纯十九度", 31),
   ("小九度+纯五度", 20), ("大九度+纯五度", 21)]

/-- `Interval.get_semitones`: dictionary lookup, `None` when absent. -/
def get_semitones (name : String) : Option Int := List.lookup name INTERVAL_MAP

/-- `Interval.calculate_note`: `None` when the interval is unknown;
otherwise `Note(base_note).transpose(semitones).get_note_name()` with every
exception (in particular a pitch-name `ValueError`) caught to `None`. -/
def calculate_note (base_note : String) (interval_name : String) : Option String :=
  match get_semitones interval_name with
  | none => none
  | some s =>
    match noteOfName base_note with
    | none => none
    | some n =>
      match transpose n s with
      | none => none
      | some t => some (get_note_name t)

/-- Upper-case letters, the possible first characters of a parsed pitch class. -/
def upperLetters : List Char := ['A', 'B', 'C', 'D', 'E', 'F', 'G']

/-- Normalised accidentals, the possible second characters of a parsed pitch class. -/
def pureAcc : List Char := ['♯', '♭']

/-- The shape of every pitch-class string `Note._parse_note` can produce:
an upper-case letter alone or followed by a normalised accidental. -/
def GoodPC (pc : String) : Prop :=
  ∃ L ∈ upperLetters,
    pc = String.mk [L] ∨ ∃ A ∈ pureAcc, pc = String.mk [L, A]

instance (pc : String) : Decidable (GoodPC pc) := by
  unfold GoodPC
  infer_instance

/-- The semitone-within-octave a well-shaped pitch class contributes:
read off from `Note._to_midi` at octave `-1`. -/
def pcSemitone (pc : String) : Int := (toMidiOf pc (-1)).getD 0

/-- `GuqinTuningCalculator.ANYIN_POSITIONS` (the 19 stopped-note position
entries), in source order. -/
def ANYIN_POSITIONS : List (String × String) :=
  [("三徽", "大十七度"), ("三徽半", "大十六度"), ("四徽", "十五度"),
   ("四徽六分", "大十三度"), ("五徽", "纯十二度"), ("五徽六分", "纯十一度"),
   ("六徽", "大十度"), ("六徽二分", "小十度"), ("六徽半", "大九度"),
   ("七徽", "八度"), ("七徽三分", "大七度"), ("七徽六分", "小七度"),
   ("七徽九分", "大六度"), ("八徽半", "小六度"), ("九徽", "纯五度"),
   ("十徽", "纯四度"), ("十徽八分", "大三度"), ("十二徽", "小三度"),
   ("徽外", "大二度")]

/-- `GuqinTuningCalculator.FANYIN_POSITIONS` (the 17 harmonic position
entries), in source order. -/
def FANYIN_POSITIONS : List (String × String) :=
  [("暗徽4", "大九度+纯五度"), ("十三徽", "纯二十二度"), ("暗徽3", "小九度+纯五度"),
   ("十二徽", "纯十九度"), ("十一徽", "大十七度"), ("十徽", "十五度"),
   ("九徽", "纯十二度"), ("八徽", "大十七度"), ("七徽", "八度"),
   ("六徽", "大十七度"), ("五徽", "纯十二度"), ("四徽", "十五度"),
   ("三徽", "大十七度"), ("二徽", "纯十九度"), ("暗徽2", "小九度+纯五度"),
   ("一徽", "纯二十二度"), ("暗徽1", "大九度+纯五度")]

/-- The table dictionary `GuqinTuningCalculator._calculate_table` returns:
position labels, interval names, and one cell list per string, indexed
`strings[string_idx][pos_idx]`. -/
structure TableD where
  positions : List String
  intervals : List String
  strings : List (List String)
deriving DecidableEq, Repr

/-- `GuqinTuningCalculator._calculate_table`: for each catalog entry in
order append its label and interval, and for each string `i` append
`Interval.calculate_note(tuning[i], interval)` or `''` when that is `None`.
The `strings` field starts as 7 empty lists; a list with no corresponding
tuning entry stays empty (`__init__` only calls this with 7 strings). -/
def calcTable (tuning : List String) (positions : List (String × String)) : TableD :=
  { positions := positions.map Prod.fst
    intervals := positions.map Prod.snd
    strings := (List.range 7).map (fun i =>
      if h : i < tuning.length then
        positions.map (fun p => (calculate_note (tuning.get ⟨i, h⟩) p.2).getD "")
      else []) }

/-- The instance state a `GuqinTuningCalculator` holds after `__init__`:
the three attributes it assigns. -/
structure Calc where
  tuning : List String
  anyin_table : TableD
  fanyin_table : TableD
deriving DecidableEq, Repr

/-- `GuqinTuningCalculator.__init__`: raise `ValueError` unless the tuning
has exactly 7 entries, else build the stopped-note and harmonic tables. -/
def guqinInit (tuning : List String) : Except String Calc :=
  if tuning.length ≠ 7 then Except.error "必须提供7根弦的空弦音"
  else Except.ok ⟨tuning, calcTable tuning ANYIN_POSITIONS, calcTable tuning FANYIN_POSITIONS⟩

def isOkE {α : Type} (e : Except String α) : Bool :=
  match e with
  | .ok _ => true
  | .error _ => false

/-- The attribute names that exist on a `GuqinTuningCalculator`: the three
instance attributes `__init__` assigns plus the class-level constants and
methods. -/
def calcAttrNames : List String :=
  ["tuning", "anyin_table", "fanyin_table",
   "ANYIN_POSITIONS", "FANYIN_POSITIONS", "STRING_NAMES",
   "_calculate_table", "get_all_notes", "get_color_map",
   "display_colored_table", "export_to_markdown"]

/-- Table-valued attribute lookup on a calculator instance: only
`anyin_table` and `fanyin_table` are table attributes; any other name
raises `AttributeError`, modelled as `none`. -/
def calcTableAttr (c : Calc) (name : String) : Option TableD :=
  if name = "anyin_table" then some c.anyin_table
  else if name = "fanyin_table" then some c.fanyin_table
  else none

/-- `MainScreen._create_stopped_table`: reads
`self.calculator.stopped_notes_table` to populate the stopped-note widget. -/
def create_stopped_table (c : Calc) : Except String TableD :=
  match calcTableAttr c "stopped_notes_table" with
  | some t => Except.ok t
  | none => Except.error "AttributeError: stopped_notes_table"

/-- `MainScreen._create_harmonics_table`: reads
`self.calculator.harmonics_table` to populate the harmonics widget. -/
def create_harmonics_table (c : Calc) : Except String TableD :=
  match calcTableAttr c "harmonics_table" with
  | some t => Except.ok t
  | none => Except.error "AttributeError: harmonics_table"

/-- The mutable state of a `PositionTable` widget: the immutable table data
it was constructed with, the reactive highlight/search attributes, and the
cell cursor of the underlying `DataTable`. -/
structure PTState where
  positions : List String
  intervals : List String
  strings_data : List (List String)
  tuning : List String
  highlighted_notes : Finset String
  search_matches : List (Nat × Nat)
  current_match_index : Int
  cursor_row : Nat
  cursor_col : Nat
deriving DecidableEq

/-- `PositionTable.watch_current_match_index`: if the (new) index is in
range of the match list, `move_cursor` to that match; the trailing
`_refresh_table` only redraws. -/
def watchCMI (s : PTState) : PTState :=
  if 0 ≤ s.current_match_index ∧ s.current_match_index < (s.search_matches.length : Int) then
    let rc := s.search_matches.getD s.current_match_index.toNat (0, 0)
    { s with cursor_row := rc.1, cursor_col := rc.2 }
  else s

/-- Assignment to the reactive attribute `current_match_index`: Textual
runs the watch method only when the assigned value differs from the
current one (`reactive` with the default `always_update=False`). -/
def setCMI (s : PTState) (v : Int) : PTState :=
  if v = s.current_match_index then s
  else watchCMI { s with current_match_index := v }

/-- Python `str.upper()` (ASCII case map; the accidental signs are
unaffected). -/
def strUpper (t : String) : String := String.mk (t.data.map Char.toUpper)

/-- Python `str.lower()`. -/
def strLower (t : String) : String := String.mk (t.data.map Char.toLower)

/-- One cell test of the scan loop of `PositionTable.search_note`: empty
cells are skipped (`continue`), a cell `Note()` fails on is skipped by the
`try`/`except`, otherwise the cell matches on exact (already upper-cased)
name or on its base letter. -/
def cellMatches (pattern : String) (note_name : String) : Bool :=
  if note_name = "" then false
  else
    match noteOfName note_name with
    | none => false
    | some note => strUpper note_name == pattern || get_base_note note == pattern

/-- The cell scanned at `(pos_idx, string_idx)`: Python indexes
`self.strings_data[string_idx][pos_idx]`; the builder always supplies 7
full string lists, so the out-of-range default is never hit there. -/
def cellAt (s : PTState) (pos_idx string_idx : Nat) : String :=
  (s.strings_data.getD string_idx []).getD pos_idx ""

/-- The scan loop of `search_note`: position index outer, string index
0..6 inner, appending `(pos_idx, string_idx + 1)` for each matching cell. -/
def searchLoop (s : PTState) (p : String) : List (Nat × Nat) :=
  (List.range s.positions.length).foldl (fun acc pos_idx =>
    (List.range 7).foldl (fun acc2 string_idx =>
      if cellMatches p (cellAt s pos_idx string_idx) then
        acc2 ++ [(pos_idx, string_idx + 1)]
      else acc2) acc) []

/-- `PositionTable.search_note`: strip and upper-case the pattern; an empty
pattern clears the matches and returns 0; otherwise run the scan loop,
store the matches, set the reactive index to 0 when matches exist and -1
otherwise, and return the match count. -/
def search_note (s : PTState) (pattern : String) : PTState × Nat :=
  let p := strUpper pattern.trim
  if p = "" then
    (setCMI { s with search_matches := [] } (-1), 0)
  else
    let ms := searchLoop s p
    (setCMI { s with search_matches := ms } (if ms = [] then -1 else 0), ms.length)

/-- The match list as the specification describes the scan: note cells in
row-major order (position index outer, string index 0..6 inner), keeping
`(row, string + 1)` for every matching cell. -/
def searchSpecMatches (s : PTState) (p : String) : List (Nat × Nat) :=
  ((List.range s.positions.length).map (fun pos_idx =>
    (List.range 7).filterMap (fun string_idx =>
      if cellMatches p (cellAt s pos_idx string_idx) then
        some (pos_idx, string_idx + 1)
      else none))).flatten

/-- `PositionTable.next_match`: `False` on an empty match list, else
advance the reactive index cyclically (Python `%` on a positive modulus,
which agrees with `Int` `%`) and return `True`. -/
def next_match (s : PTState) : PTState × Bool :=
  if s.search_matches = [] then (s, false)
  else (setCMI s ((s.current_match_index + 1) % (s.search_matches.length : Int)), true)

/-- `PositionTable.prev_match`: the cyclic retreat. -/
def prev_match (s : PTState) : PTState × Bool :=
  if s.search_matches = [] then (s, false)
  else (setCMI s ((s.current_match_index - 1) % (s.search_matches.length : Int)), true)

/-- `PositionTable.clear_search`: empty the match list, reset the reactive
index to -1. -/
def clear_search (s : PTState) : PTState :=
  setCMI { s with search_matches := [] } (-1)

/-- `PositionTable.clear_highlights`. -/
def clear_highlights (s : PTState) : PTState := { s with highlighted_notes := ∅ }

/-- `PositionTable.highlight_note`: replace the highlight set by a
singleton. -/
def highlight_note (s : PTState) (name : String) : PTState :=
  { s with highlighted_notes := {name} }

/-- A freshly constructed `PositionTable` over builder output: reactive
attributes at their declared initial values, cursor at the origin. -/
def initPT (t : TableD) (tuning : List String) : PTState :=
  { positions := t.positions, intervals := t.intervals,
    strings_data := t.strings, tuning := tuning,
    highlighted_notes := ∅, search_matches := [], current_match_index := -1,
    cursor_row := 0, cursor_col := 0 }

/-- The `MainScreen` state the command dispatch can touch. -/
structure MainState where
  tuning : List String
  tuning_name : String
  calculator : Calc
  stopped_table : PTState
  harmonics_table : PTState
  current_table : String
  status_message : String
deriving DecidableEq

/-- External effects `MainScreen._execute_command` can trigger. -/
inductive Effect where
  | pushHelpScreen
  | exitApp
  | exportMarkdown (filename : String) (tuning_name : String)
deriving DecidableEq, Repr

/-- Python `str.split()` with no argument, on the character list: split on
whitespace runs, dropping empty pieces (`acc` holds the reversed current
word). -/
def pySplitCore : List Char → List Char → List String
  | [], acc => if acc.isEmpty then [] else [String.mk acc.reverse]
  | c :: cs, acc =>
    if c.isWhitespace then
      if acc.isEmpty then pySplitCore cs []
      else String.mk acc.reverse :: pySplitCore cs []
    else pySplitCore cs (c :: acc)

/-- Python `str.split()` with no argument. -/
def pySplit (s : String) : List String := pySplitCore s.data []

/-- `MainScreen._execute_command`: tokenize, lower-case the verb, dispatch.
`help`, `quit`/`q` and a successful `export` are modelled as effects; the
`retune` and `load` verbs only set a status message (`retune` with 7
pitches is an unimplemented stub marked `TODO` in the source); an unknown
verb reports `未知命令`. -/
def execute_command (st : MainState) (command : String) : MainState × List Effect :=
  let parts := pySplit command
  match parts with
  | [] => (st, [])
  | first :: _ =>
    let cmd := strLower first
    if cmd = "help" then (st, [Effect.pushHelpScreen])
    else if cmd = "quit" ∨ cmd = "q" then (st, [Effect.exitApp])
    else if cmd = "export" then
      if parts.length < 2 then
        ({ st with status_message := "用法: :export <文件名>" }, [])
      else
        ({ st with status_message := "已导出到: " ++ parts.getD 1 "" },
         [Effect.exportMarkdown (parts.getD 1 "") st.tuning_name])
    else if cmd = "retune" then
      if parts.length < 8 then
        ({ st with status_message := "用法: :retune C2 D2 F2 G2 A2 C3 D3" }, [])
      else
        ({ st with status_message := "变调功能开发中..." }, [])
    else if cmd = "load" then
      if parts.length < 2 then
        ({ st with status_message := "用法: :load <预设名>" }, [])
      else
        ({ st with status_message := "加载预设功能开发中..." }, [])
    else ({ st with status_message := "未知命令: " ++ cmd }, [])

/-- `MainScreen.action_retune` (the `r` binding): a stub that only reports
the feature as under development. -/
def action_retune (st : MainState) : MainState :=
  { st with status_message := "变调功能开发中..." }

end Guqin

namespace Guqin

/-! ### Decimal printing and reading -/

lemma digVal_digCh {d : Nat} (h : d < 10) : digVal (digCh d) = d := by
  interval_cases d <;> decide

lemma isDigit_digCh {d : Nat} (h : d < 10) : (digCh d).isDigit = true := by
  interval_cases d <;> decide

lemma natStrCore_spec : ∀ (fuel n : Nat), n < fuel →
    natStrCore fuel n ≠ [] ∧ (natStrCore fuel n).all Char.isDigit = true ∧
      (natStrCore fuel n).foldl (fun a c => 10 * a + digVal c) 0 = n := by
  intro fuel
  induction fuel with
  | zero => intro n hn; omega
  | succ fuel ih =>
    intro n hn
    rw [natStrCore]
    split
    · next h =>
      exact ⟨by simp, by simp [List.all_cons, isDigit_digCh h],
        by simp [List.foldl, digVal_digCh h]⟩
    · next h =>
      obtain ⟨ih1, ih2, ih3⟩ := ih (n / 10) (by omega)
      have h2 : n % 10 < 10 := by omega
      refine ⟨by simp, ?_, ?_⟩
      · rw [List.all_append]
        simp [ih2, isDigit_digCh h2]
      · rw [List.foldl_append, ih3]
        simp [List.foldl, digVal_digCh h2]
        omega

lemma natStrL_ne_nil (n : Nat) : natStrL n ≠ [] :=
  (natStrCore_spec (n + 1) n (by omega)).1

lemma natStrL_all_digit (n : Nat) : (natStrL n).all Char.isDigit = true :=
  (natStrCore_spec (n + 1) n (by omega)).2.1

lemma natStrL_val (n : Nat) :
    (natStrL n).foldl (fun a c => 10 * a + digVal c) 0 = n :=
  (natStrCore_spec (n + 1) n (by omega)).2.2

lemma readNat_natStrL (n : Nat) : readNat (natStrL n) = some n := by
  simp [readNat, natStrL_ne_nil, natStrL_all_digit, natStrL_val]

lemma isDigit_ne_dash {c : Char} (h : c.isDigit = true) : c ≠ '-' := by
  intro e
  subst e
  exact absurd h (by decide)

lemma isDigit_not_acc {c : Char} (h : c.isDigit = true) : isAcc c = false := by
  cases e : isAcc c
  · rfl
  · exfalso
    have hm : c ∈ accChars := by simpa [isAcc, List.elem_iff] using e
    fin_cases hm <;> exact absurd h (by decide)

lemma natStrL_cons (n : Nat) :
    ∃ c t, natStrL n = c :: t ∧ c.isDigit = true := by
  cases e : natStrL n with
  | nil => exact absurd e (natStrL_ne_nil n)
  | cons c t =>
    refine ⟨c, t, rfl, ?_⟩
    have hall := natStrL_all_digit n
    rw [e] at hall
    simp only [List.all_cons, Bool.and_eq_true] at hall
    exact hall.1

/-- Reading back the decimal rendering of any integer gives that integer:
the octave group of the regex accepts every formatted octave. -/
lemma readInt_intStrL (i : Int) : readInt (intStrL i) = some i := by
  unfold intStrL
  split
  · next h =>
    unfold readInt
    rw [if_pos (by simp), List.tail_cons, readNat_natStrL]
    have habs : ((i.natAbs : Nat) : Int) = -i := by omega
    simp [habs]
  · next h =>
    obtain ⟨c, t, e, hd⟩ := natStrL_cons i.toNat
    rw [e]
    unfold readInt
    rw [if_neg (by simpa using isDigit_ne_dash hd)]
    rw [← e, readNat_natStrL]
    simp
    omega

lemma intStrL_cons (i : Int) :
    ∃ c t, intStrL i = c :: t ∧ isAcc c = false := by
  unfold intStrL
  split
  · exact ⟨'-', _, rfl, by decide⟩
  · obtain ⟨c, t, e, hd⟩ := natStrL_cons i.toNat
    exact ⟨c, t, e, isDigit_not_acc hd⟩

/-! ### The pitch-name parser on well-shaped names -/

lemma upper_isLetter {L : Char} (h : L ∈ upperLetters) : isLetterAG L = true := by
  fin_cases h <;> decide

lemma upper_toUpper {L : Char} (h : L ∈ upperLetters) : L.toUpper = L := by
  fin_cases h <;> decide

lemma acc_isAcc {A : Char} (h : A ∈ pureAcc) : isAcc A = true := by
  fin_cases h <;> decide

lemma acc_mapAcc {A : Char} (h : A ∈ pureAcc) : mapAcc A = A := by
  fin_cases h <;> decide

/-- Formatting a well-shaped pitch class with any integer octave parses
back to exactly that pitch class and octave. -/
lemma parse_good_roundtrip {pc : String} (h : GoodPC pc) (k : Int) :
    parseNote (pc ++ intStr k) = some (pc, k) := by
  obtain ⟨L, hL, hpc⟩ := h
  obtain ⟨c, t, hct, hacc⟩ := intStrL_cons k
  rcases hpc with h1 | ⟨A, hA, h2⟩
  · subst h1
    show parseNoteCore (String.mk [L] ++ intStr k).data = _
    have hdata : (String.mk [L] ++ intStr k).data = L :: intStrL k := rfl
    rw [hdata, hct]
    simp only [parseNoteCore, upper_isLetter hL, if_true, hacc, Bool.false_eq_true,
      ite_false, ← hct, readInt_intStrL, upper_toUpper hL]
  · subst h2
    show parseNoteCore (String.mk [L, A] ++ intStr k).data = _
    have hdata : (String.mk [L, A] ++ intStr k).data = L :: A :: intStrL k := rfl
    rw [hdata]
    simp only [parseNoteCore, upper_isLetter hL, if_true, acc_isAcc hA,
      readInt_intStrL, upper_toUpper hL, acc_mapAcc hA]

lemma noteOfName_good {pc : String} (h : GoodPC pc) (k : Int) {s : Int}
    (hs : toMidiOf pc k = some s) :
    noteOfName (pc ++ intStr k) = some ⟨pc, k, s⟩ := by
  unfold noteOfName
  rw [parse_good_roundtrip h]
  dsimp only
  rw [hs]

lemma letter_mem {l : Char} (h : isLetterAG l = true) : l ∈ letterChars := by
  simpa [isLetterAG, List.elem_iff] using h

lemma acc_mem {a : Char} (h : isAcc a = true) : a ∈ accChars := by
  simpa [isAcc, List.elem_iff] using h

lemma toUpper_upper {l : Char} (h : isLetterAG l = true) : l.toUpper ∈ upperLetters := by
  have := letter_mem h
  fin_cases this <;> decide

lemma mapAcc_pure {a : Char} (h : isAcc a = true) : mapAcc a ∈ pureAcc := by
  have := acc_mem h
  fin_cases this <;> decide

/-- Every pitch class a successful parse produces is well shaped. -/
lemma parse_goodPC {cs : List Char} {pc : String} {k : Int}
    (h : parseNoteCore cs = some (pc, k)) : GoodPC pc := by
  cases cs with
  | nil => exact absurd h (by simp [parseNoteCore])
  | cons l rest =>
    by_cases hl : isLetterAG l
    case neg => simp [parseNoteCore, hl] at h
    cases rest with
    | nil => simp [parseNoteCore, hl] at h
    | cons a rest2 =>
      by_cases ha : isAcc a
      · cases hr : readInt rest2 with
        | none => simp [parseNoteCore, hl, ha, hr] at h
        | some o =>
          simp only [parseNoteCore, hl, if_true, ha, hr] at h
          obtain ⟨hpc, _⟩ := Prod.mk.injEq .. ▸ (Option.some.injEq .. ▸ h)
          exact ⟨l.toUpper, toUpper_upper hl,
            Or.inr ⟨mapAcc a, mapAcc_pure ha, hpc.symm⟩⟩
      · cases hr : readInt (a :: rest2) with
        | none => simp [parseNoteCore, hl, ha, hr] at h
        | some o =>
          simp only [parseNoteCore, hl, if_true, ha, hr] at h
          obtain ⟨hpc, _⟩ := Prod.mk.injEq .. ▸ (Option.some.injEq .. ▸ h)
          exact ⟨l.toUpper, toUpper_upper hl, Or.inl hpc.symm⟩

/-- On a well-shaped pitch class `Note._to_midi` always succeeds. -/
lemma toMidiOf_good {pc : String} (h : GoodPC pc) (k : Int) :
    ∃ m, toMidiOf pc k = some m := by
  obtain ⟨L, hL, hpc⟩ := h
  rcases hpc with h1 | ⟨A, hA, h2⟩
  · subst h1
    fin_cases hL <;> exact ⟨_, rfl⟩
  · subst h2
    fin_cases hL <;> fin_cases hA <;> exact ⟨_, rfl⟩

lemma toMidiOf_eq_good {pc : String} (h : GoodPC pc) (k : Int) :
    toMidiOf pc k = some ((k + 1) * 12 + pcSemitone pc) := by
  obtain ⟨L, hL, hpc⟩ := h
  rcases hpc with h1 | ⟨A, hA, h2⟩
  · subst h1
    fin_cases hL <;> rfl
  · subst h2
    fin_cases hL <;> fin_cases hA <;> rfl

/-! ### `Note.from_midi` -/

lemma fromMidi_build (m : Int) (pc : String) (good : GoodPC pc)
    (hpc : SEMITONE_TO_NOTE (m % 12) = some pc)
    (hmid : toMidiOf pc (m / 12 - 1) = some m) :
    fromMidi m = some ⟨pc, m / 12 - 1, m⟩ := by
  unfold fromMidi
  rw [hpc]
  dsimp only
  exact noteOfName_good good _ hmid

/-- `Note.from_midi` always succeeds: it yields the fixed-table spelling
of `midi % 12`, the octave `midi // 12 - 1`, and the same MIDI number. -/
lemma fromMidi_spec (m : Int) :
    fromMidi m = some ⟨(SEMITONE_TO_NOTE (m % 12)).getD "", m / 12 - 1, m⟩ := by
  have h12 : m % 12 = 0 ∨ m % 12 = 1 ∨ m % 12 = 2 ∨ m % 12 = 3 ∨ m % 12 = 4 ∨
      m % 12 = 5 ∨ m % 12 = 6 ∨ m % 12 = 7 ∨ m % 12 = 8 ∨ m % 12 = 9 ∨
      m % 12 = 10 ∨ m % 12 = 11 := by omega
  rcases h12 with h | h | h | h | h | h | h | h | h | h | h | h <;>
    exact fromMidi_build m ((SEMITONE_TO_NOTE (m % 12)).getD "")
      (by rw [h]; decide) (by rw [h]; decide)
      (by rw [toMidiOf_eq_good (by rw [h]; decide) (m / 12 - 1)]
          have hp : pcSemitone ((SEMITONE_TO_NOTE (m % 12)).getD "") = m % 12 := by
            rw [h]; decide
          congr 1
          omega)

/-- The pitch class `Note.from_midi` produces is well shaped. -/
lemma fromMidi_goodPC (m : Int) : GoodPC ((SEMITONE_TO_NOTE (m % 12)).getD "") := by
  have h12 : m % 12 = 0 ∨ m % 12 = 1 ∨ m % 12 = 2 ∨ m % 12 = 3 ∨ m % 12 = 4 ∨
      m % 12 = 5 ∨ m % 12 = 6 ∨ m % 12 = 7 ∨ m % 12 = 8 ∨ m % 12 = 9 ∨
      m % 12 = 10 ∨ m % 12 = 11 := by omega
  rcases h12 with h | h | h | h | h | h | h | h | h | h | h | h <;> rw [h] <;> decide

end Guqin

namespace Guqin

/-! ### Parsed notes: inversion and the format round trip -/

lemma noteOfName_inv {tok : String} {n : Note} (h : noteOfName tok = some n) :
    GoodPC n.pitch_class ∧ toMidiOf n.pitch_class n.octave = some n.midi_number := by
  unfold noteOfName at h
  cases hp : parseNote tok with
  | none => rw [hp] at h; exact absurd h (by simp)
  | some po =>
    obtain ⟨pc, oct⟩ := po
    rw [hp] at h
    dsimp only at h
    cases hm : toMidiOf pc oct with
    | none => rw [hm] at h; exact absurd h (by simp)
    | some m =>
      rw [hm] at h
      simp only [Option.some.injEq] at h
      subst h
      exact ⟨parse_goodPC hp, hm⟩

/-- Formatting a parsed note and parsing the result gives the note back. -/
lemma format_parse_id {tok : String} {n : Note} (h : noteOfName tok = some n) :
    noteOfName (get_note_name n) = some n := by
  obtain ⟨good, hm⟩ := noteOfName_inv h
  simpa [get_note_name] using noteOfName_good good n.octave hm

/-- A note built by `Note.from_midi` parses back from its own name. -/
lemma noteOfName_of_fromMidi {m : Int} {n' : Note} (h : fromMidi m = some n') :
    noteOfName (get_note_name n') = some n' := by
  unfold fromMidi at h
  cases hp : SEMITONE_TO_NOTE (m % 12) with
  | none => rw [hp] at h; exact absurd h (by simp)
  | some pc => rw [hp] at h; exact format_parse_id h

lemma goodPC_of_fromMidi {m : Int} {n' : Note} (h : fromMidi m = some n') :
    GoodPC n'.pitch_class := by
  rw [fromMidi_spec m] at h
  simp only [Option.some.injEq] at h
  subst h
  exact fromMidi_goodPC m

lemma goodPC_ne_empty {pc : String} (h : GoodPC pc) (k : Int) :
    pc ++ intStr k ≠ "" := by
  obtain ⟨L, _, hpc⟩ := h
  intro e
  have hdata : (pc ++ intStr k).data = ("" : String).data := by rw [e]
  rw [String.data_append] at hdata
  rcases hpc with h1 | ⟨A, _, h2⟩ <;> subst_vars <;> simp at hdata

end Guqin

namespace Guqin

/-! ### Claim C2: linearity of transposition -/

/-- C2: for every parseable pitch and every integer semitone count, the
linear pitch number (MIDI number) of the transposed pitch is the original
linear number plus the shift; there is no range clamp, so this also covers
negative results, and the transposed pitch formats to a name that parses
back to the same linear number. -/
theorem transpose_linear (tok : String) (n : Note) (h : noteOfName tok = some n)
    (s : Int) :
    ∃ n', transpose n s = some n' ∧ n'.midi_number = n.midi_number + s ∧
      ∃ n'', noteOfName (get_note_name n') = some n'' ∧
        n''.midi_number = n.midi_number + s := by
  have ht : transpose n s = some ⟨(SEMITONE_TO_NOTE ((n.midi_number + s) % 12)).getD "",
      (n.midi_number + s) / 12 - 1, n.midi_number + s⟩ := fromMidi_spec _
  refine ⟨_, ht, rfl, ?_⟩
  have hre := noteOfName_of_fromMidi (show fromMidi (n.midi_number + s) = _ from ht)
  exact ⟨_, hre, rfl⟩

/-- C2 witness: transposing the parsed `C♯-2` (linear number -11) by -5
lands on linear number -16 (a negative octave), and the formatted result
parses back to -16. -/
theorem transpose_linear_witness :
    noteOfName "C♯-2" = some ⟨"C♯", -2, -11⟩ ∧
    ∃ n', transpose ⟨"C♯", -2, -11⟩ (-5) = some n' ∧
      n'.midi_number = (-11 : Int) + (-5) ∧
      ∃ n'', noteOfName (get_note_name n') = some n'' ∧
        n''.midi_number = (-11 : Int) + (-5) :=
  ⟨by decide, transpose_linear "C♯-2" ⟨"C♯", -2, -11⟩ (by decide) (-5)⟩

/-! ### Claim C3: parse/format round trip -/

/-- C3: for every token the parser accepts, formatting the parsed pitch
and parsing the result yields a pitch with the same linear pitch number
(in fact the very same parsed note). -/
theorem parse_format_parse (tok : String) (n : Note) (h : noteOfName tok = some n) :
    ∃ n', noteOfName (get_note_name n) = some n' ∧
      n'.midi_number = n.midi_number :=
  ⟨n, format_parse_id h, rfl⟩

/-- C3 witness: the token `bb-1` (lower-case letter, ASCII flat, negative
octave) parses, formats to the normalised `B♭-1`, and re-parses with the
same linear number 10. -/
theorem parse_format_parse_witness :
    noteOfName "bb-1" = some ⟨"B♭", -1, 10⟩ ∧
    ∃ n', noteOfName (get_note_name (⟨"B♭", -1, 10⟩ : Note)) = some n' ∧
      n'.midi_number = (⟨"B♭", -1, 10⟩ : Note).midi_number :=
  ⟨by decide, parse_format_parse "bb-1" ⟨"B♭", -1, 10⟩ (by decide)⟩

/-! ### Claim C9: which spellings does formatting produce -/

/-- C9 counterexample: the input spelled `D#3` has semitone 3 within its
octave, whose 12-entry-table spelling is `E♭`, yet `get_note_name` formats
it as `D♯3`, not as the table entry `E♭3`: formatting preserves the parsed
spelling instead of resolving through the table. -/
theorem format_table_spelling_cex :
    (noteOfName "D#3").map get_note_name = some "D♯3" ∧
    (noteOfName "D#3").map (fun n => n.midi_number % 12) = some 3 ∧
    SEMITONE_TO_NOTE 3 = some "E♭" ∧
    ("D♯3" : String) ≠ "E♭3" := by
  exact ⟨rfl, rfl, rfl, by decide⟩

/-- C9 amended: the fixed 12-entry-table spelling governs exactly the
pitches built by `Note.from_midi` (hence every transposition result): such
a pitch carries the table spelling of its semitone-within-octave and
formats as that spelling followed by the octave.  A parsed pitch instead
formats with its own stored (normalised) spelling. -/
theorem format_table_spelling_amended (m : Int) (nt : Note) (s : Int) :
    (∃ n, fromMidi m = some n ∧
      n.pitch_class = (SEMITONE_TO_NOTE (m % 12)).getD "" ∧
      get_note_name n = (SEMITONE_TO_NOTE (m % 12)).getD "" ++ intStr (m / 12 - 1)) ∧
    (∃ n', transpose nt s = some n' ∧
      n'.pitch_class = (SEMITONE_TO_NOTE ((nt.midi_number + s) % 12)).getD "") ∧
    (∀ n₀ : Note, get_note_name n₀ = n₀.pitch_class ++ intStr n₀.octave) :=
  ⟨⟨_, fromMidi_spec m, rfl, rfl⟩, ⟨_, fromMidi_spec _, rfl⟩, fun _ => rfl⟩

/-! ### Claim C8: the missing calculator attributes -/

/-- C8: the main screen reads `calculator.stopped_notes_table` and
`calculator.harmonics_table`, but the calculator defines neither (it
stores the grids as `anyin_table` and `fanyin_table`), so both table
constructors raise `AttributeError` for every calculator instance. -/
theorem create_tables_attr_missing (c : Calc) :
    "stopped_notes_table" ∉ calcAttrNames ∧
    "harmonics_table" ∉ calcAttrNames ∧
    "anyin_table" ∈ calcAttrNames ∧
    "fanyin_table" ∈ calcAttrNames ∧
    create_stopped_table c = Except.error "AttributeError: stopped_notes_table" ∧
    create_harmonics_table c = Except.error "AttributeError: harmonics_table" :=
  ⟨by decide, by decide, by decide, by decide, rfl, rfl⟩

/-! ### Claim C10: `clear_search` -/

lemma clear_search_eq (s : PTState) :
    clear_search s = { s with search_matches := [], current_match_index := -1 } := by
  cases s with
  | mk pos ints sd tun hn sm cmi cr cc =>
    unfold clear_search setCMI watchCMI
    dsimp only
    split
    · next h => rw [h.symm]
    · rw [if_neg (by simp)]

/-- C10: one `clear_search` empties the match list and resets the index to
-1 (none); a second call changes nothing; no call touches the highlight
set (and the cursor is left in place as well). -/
theorem clear_search_idempotent (s : PTState) :
    (clear_search s).search_matches = [] ∧
    (clear_search s).current_match_index = -1 ∧
    clear_search (clear_search s) = clear_search s ∧
    (clear_search s).highlighted_notes = s.highlighted_notes ∧
    (clear_search s).cursor_row = s.cursor_row ∧
    (clear_search s).cursor_col = s.cursor_col := by
  rw [clear_search_eq]
  refine ⟨rfl, rfl, ?_, rfl, rfl, rfl⟩
  rw [clear_search_eq]

end Guqin

namespace Guqin

/-! ### `Interval.calculate_note` and the table builder -/

lemma calculate_note_unknown {base iv : String} (h : get_semitones iv = none) :
    calculate_note base iv = none := by
  unfold calculate_note
  rw [h]

lemma calculate_note_badpitch {base iv : String} (h : noteOfName base = none) :
    calculate_note base iv = none := by
  cases hs : get_semitones iv with
  | none => exact calculate_note_unknown hs
  | some sv =>
    unfold calculate_note
    rw [hs]
    dsimp only
    rw [h]

lemma calculate_note_ok {base iv : String} {sv : Int} {n : Note}
    (hs : get_semitones iv = some sv) (hn : noteOfName base = some n) :
    ∃ n', transpose n sv = some n' ∧
      calculate_note base iv = some (get_note_name n') ∧
      noteOfName (get_note_name n') = some n' := by
  have ht : transpose n sv = some ⟨(SEMITONE_TO_NOTE ((n.midi_number + sv) % 12)).getD "",
      (n.midi_number + sv) / 12 - 1, n.midi_number + sv⟩ := fromMidi_spec _
  refine ⟨_, ht, ?_, noteOfName_of_fromMidi (show fromMidi (n.midi_number + sv) = _ from ht)⟩
  unfold calculate_note
  rw [hs]
  dsimp only
  rw [hn]
  dsimp only
  rw [ht]

lemma get_note_name_ne_empty {m : Int} {n' : Note} (h : fromMidi m = some n') :
    get_note_name n' ≠ "" :=
  goodPC_ne_empty (goodPC_of_fromMidi h) n'.octave

lemma calcTable_strings_getD {tuning : List String} {positions : List (String × String)}
    {i : Nat} (hi : i < 7) (hit : i < tuning.length) :
    (calcTable tuning positions).strings.getD i [] =
      positions.map (fun p => (calculate_note (tuning.get ⟨i, hit⟩) p.2).getD "") := by
  unfold calcTable
  dsimp only
  rw [List.getD_eq_getElem?_getD, List.getElem?_map, List.getElem?_range hi]
  simp [hit]

lemma getD_map_get {α β : Type} (l : List α) (g : α → β) (d : β) {j : Nat}
    (hj : j < l.length) :
    (l.map g).getD j d = g (l.get ⟨j, hj⟩) := by
  rw [List.getD_eq_getElem?_getD, List.getElem?_map, List.getElem?_eq_getElem hj]
  rfl

/-! ### Claim C1: what happens on a malformed tuning pitch -/

/-- A tuning whose first token is not a valid pitch name. -/
def badTuning : List String := ["X9", "D2", "F2", "G2", "A2", "C3", "D3"]

/-- C1 counterexample: `X9` is a malformed pitch name, yet building the
calculator over `badTuning` succeeds (no `InvalidPitchName` is raised),
cells of the other strings are still computed (string 2 gets `F♯4` at the
first stopped position, whose interval `大十七度` is in the interval map),
and the malformed string's cells silently become empty. -/
theorem eager_validation_cex :
    noteOfName "X9" = none ∧
    isOkE (guqinInit badTuning) = true ∧
    get_semitones "大十七度" = some 28 ∧
    ((calcTable badTuning ANYIN_POSITIONS).strings.getD 0 []).getD 0 "" = "" ∧
    ((calcTable badTuning ANYIN_POSITIONS).strings.getD 1 []).getD 0 "" = "F♯4" :=
  ⟨rfl, rfl, rfl, rfl, rfl⟩

/-- C1 amended: building from any 7-token tuning never fails at all
(`__init__` only checks the count); a malformed tuning pitch is caught
inside `Interval.calculate_note` and degrades every cell of that string to
the empty string, exactly like an unknown interval name. -/
theorem build_never_fails (tuning : List String) (h7 : tuning.length = 7) :
    (∃ c, guqinInit tuning = Except.ok c ∧
      c.anyin_table = calcTable tuning ANYIN_POSITIONS ∧
      c.fanyin_table = calcTable tuning FANYIN_POSITIONS) ∧
    (∀ positions : List (String × String), ∀ i, ∀ hit : i < tuning.length, i < 7 →
      noteOfName (tuning.get ⟨i, hit⟩) = none →
        (calcTable tuning positions).strings.getD i [] =
          List.replicate positions.length "") := by
  constructor
  · refine ⟨⟨tuning, calcTable tuning ANYIN_POSITIONS,
      calcTable tuning FANYIN_POSITIONS⟩, ?_, rfl, rfl⟩
    simp [guqinInit, h7]
  · intro positions i hit hi7 hbad
    rw [calcTable_strings_getD hi7 hit]
    have hcell : ∀ p ∈ positions,
        (calculate_note (tuning.get ⟨i, hit⟩) p.2).getD "" = "" := by
      intro p _
      rw [calculate_note_badpitch hbad]
      rfl
    rw [List.map_congr_left hcell]
    simp

/-- C1 witness: applying the amended theorem to the 7-token tuning whose
first pitch is malformed: the build returns `ok` with both tables, and the
malformed string's stopped-note column is all empty cells. -/
theorem build_never_fails_witness :
    (∃ c, guqinInit badTuning = Except.ok c ∧
      c.anyin_table = calcTable badTuning ANYIN_POSITIONS ∧
      c.fanyin_table = calcTable badTuning FANYIN_POSITIONS) ∧
    (calcTable badTuning ANYIN_POSITIONS).strings.getD 0 [] =
      List.replicate ANYIN_POSITIONS.length "" := by
  have h := build_never_fails badTuning (by decide)
  exact ⟨h.1, h.2 ANYIN_POSITIONS 0 (by decide) (by decide) (by decide)⟩

end Guqin

namespace Guqin

/-! ### Claim C4: shape and contents of the built tables -/

/-- C4: over a tuning of 7 parseable pitches, each of the two catalogs
builds a table with the catalog's labels and intervals preserved in order
(19 stopped rows, 17 harmonic rows), exactly 7 string columns each of full
row count; a cell is empty exactly when the entry's interval has no
semitone mapping, otherwise it is the formatted transposition of that
string's open pitch — in particular every cell is empty or parseable. -/
theorem table_build_spec (tuning : List String) (h7 : tuning.length = 7)
    (hp : ∀ t ∈ tuning, (noteOfName t).isSome = true)
    (cat : List (String × String))
    (hcat : cat = ANYIN_POSITIONS ∨ cat = FANYIN_POSITIONS) :
    (cat = ANYIN_POSITIONS → cat.length = 19) ∧
    (cat = FANYIN_POSITIONS → cat.length = 17) ∧
    (calcTable tuning cat).positions = cat.map Prod.fst ∧
    (calcTable tuning cat).intervals = cat.map Prod.snd ∧
    (calcTable tuning cat).strings.length = 7 ∧
    (∀ col ∈ (calcTable tuning cat).strings, col.length = cat.length) ∧
    (∀ i, i < 7 → ∀ j, ∀ hj : j < cat.length,
      (get_semitones (cat.get ⟨j, hj⟩).2 = none →
        ((calcTable tuning cat).strings.getD i []).getD j "" = "") ∧
      (∀ sv, get_semitones (cat.get ⟨j, hj⟩).2 = some sv →
        ∃ n n', noteOfName (tuning.getD i "") = some n ∧
          transpose n sv = some n' ∧
          ((calcTable tuning cat).strings.getD i []).getD j "" = get_note_name n' ∧
          get_note_name n' ≠ "" ∧
          noteOfName (get_note_name n') = some n')) := by
  refine ⟨fun e => by subst e; rfl, fun e => by subst e; rfl, rfl, rfl,
    by simp [calcTable], ?_, ?_⟩
  · intro col hcol
    unfold calcTable at hcol
    dsimp only at hcol
    obtain ⟨i, hir, rfl⟩ := List.mem_map.mp hcol
    have hi7 : i < 7 := List.mem_range.mp hir
    rw [dif_pos (h7 ▸ hi7)]
    simp
  · intro i hi7 j hj
    have hit : i < tuning.length := h7 ▸ hi7
    have hgetD : tuning.getD i "" = tuning.get ⟨i, hit⟩ := by
      rw [List.getD_eq_getElem?_getD, List.getElem?_eq_getElem hit]
      rfl
    rw [calcTable_strings_getD hi7 hit,
      getD_map_get cat (fun p => (calculate_note (tuning.get ⟨i, hit⟩) p.2).getD "") "" hj]
    constructor
    · intro hnone
      rw [calculate_note_unknown hnone]
      rfl
    · intro sv hs
      obtain ⟨n, hn⟩ := Option.isSome_iff_exists.mp
        (hp (tuning.get ⟨i, hit⟩) (List.get_mem tuning i hit))
      obtain ⟨n', ht, hc, hre⟩ := calculate_note_ok hs hn
      refine ⟨n, n', by rw [hgetD]; exact hn, ht, by rw [hc]; rfl, ?_, hre⟩
      exact get_note_name_ne_empty (show fromMidi (n.midi_number + sv) = _ from ht)

/-- The default tuning of the repository (F 大调正调). -/
def stdTuning : List String := ["C2", "D2", "F2", "G2", "A2", "C3", "D3"]

/-- C4 witness: the theorem applied to the default tuning and the
stopped-note catalog, plus the specification's concrete example: at the
octave row `七徽` (row 9), string 1 (C2) the cell is `C3`. -/
theorem table_build_spec_witness :
    (calcTable stdTuning ANYIN_POSITIONS).strings.length = 7 ∧
    (∀ col ∈ (calcTable stdTuning ANYIN_POSITIONS).strings,
      col.length = ANYIN_POSITIONS.length) ∧
    ((calcTable stdTuning ANYIN_POSITIONS).strings.getD 0 []).getD 9 "" = "C3" := by
  have h := table_build_spec stdTuning (by decide) (by decide)
    ANYIN_POSITIONS (Or.inl rfl)
  exact ⟨h.2.2.2.2.1, h.2.2.2.2.2.1, rfl⟩

end Guqin

namespace Guqin

/-! ### Claim C5: the search scan -/

lemma foldl_ite_append {α β : Type} (q : α → Bool) (g : α → β) (l : List α)
    (acc : List β) :
    l.foldl (fun a x => if q x then a ++ [g x] else a) acc =
      acc ++ l.filterMap (fun x => if q x then some (g x) else none) := by
  induction l generalizing acc with
  | nil => simp
  | cons hd tl ih =>
    rw [List.foldl_cons, List.filterMap_cons]
    by_cases hq : q hd
    · rw [if_pos hq, if_pos hq, ih, List.append_assoc]
      rfl
    · rw [if_neg hq, if_neg hq, ih]

lemma foldl_acc_append {α β : Type} (g : α → List β) (l : List α) (acc : List β) :
    l.foldl (fun a x => a ++ g x) acc = acc ++ (l.map g).flatten := by
  induction l generalizing acc with
  | nil => simp
  | cons hd tl ih =>
    rw [List.foldl_cons, ih, List.map_cons, List.flatten_cons, List.append_assoc]

/-- The imperative scan loop computes exactly the row-major match list the
specification describes. -/
lemma searchLoop_eq_spec (s : PTState) (p : String) :
    searchLoop s p = searchSpecMatches s p := by
  unfold searchLoop searchSpecMatches
  have hfun : (fun (acc : List (Nat × Nat)) pos_idx =>
      (List.range 7).foldl (fun acc2 string_idx =>
        if cellMatches p (cellAt s pos_idx string_idx) then
          acc2 ++ [(pos_idx, string_idx + 1)]
        else acc2) acc) =
      (fun acc pos_idx => acc ++ (List.range 7).filterMap (fun string_idx =>
        if cellMatches p (cellAt s pos_idx string_idx) then
          some (pos_idx, string_idx + 1)
        else none)) := by
    funext acc pos_idx
    exact foldl_ite_append _ _ _ _
  rw [hfun, foldl_acc_append]
  rfl

lemma setCMI_proj (s : PTState) (v : Int) :
    (setCMI s v).search_matches = s.search_matches ∧
    (setCMI s v).highlighted_notes = s.highlighted_notes ∧
    (setCMI s v).positions = s.positions ∧
    (setCMI s v).intervals = s.intervals ∧
    (setCMI s v).strings_data = s.strings_data ∧
    (setCMI s v).tuning = s.tuning ∧
    (setCMI s v).current_match_index = v := by
  unfold setCMI watchCMI
  split
  · next h => exact ⟨rfl, rfl, rfl, rfl, rfl, rfl, h.symm⟩
  · split <;> exact ⟨rfl, rfl, rfl, rfl, rfl, rfl, rfl⟩

/-- C5: `search_note` trims and upper-cases the pattern; an empty result
clears the match list, sets the index to -1 (none) and returns 0; a
nonempty pattern stores exactly the row-major spec match list, returns its
length, and sets the index to 0 when a match exists and -1 otherwise.
Highlights and the table data are untouched. -/
theorem search_note_spec (s : PTState) (pattern : String) :
    (search_note s pattern).1.search_matches =
      (if strUpper pattern.trim = "" then []
       else searchSpecMatches s (strUpper pattern.trim)) ∧
    (search_note s pattern).2 =
      (if strUpper pattern.trim = "" then 0
       else (searchSpecMatches s (strUpper pattern.trim)).length) ∧
    (search_note s pattern).1.current_match_index =
      (if strUpper pattern.trim = "" ∨ searchSpecMatches s (strUpper pattern.trim) = []
       then -1 else 0) ∧
    (search_note s pattern).1.highlighted_notes = s.highlighted_notes ∧
    (search_note s pattern).1.positions = s.positions ∧
    (search_note s pattern).1.strings_data = s.strings_data := by
  unfold search_note
  by_cases hp : strUpper pattern.trim = ""
  · rw [if_pos hp]
    dsimp only
    obtain ⟨m1, m2, m3, _, m5, _, m7⟩ := setCMI_proj { s with search_matches := [] } (-1)
    rw [if_pos hp, if_pos hp, if_pos (Or.inl hp)]
    exact ⟨m1, rfl, m7, m2, m3, m5⟩
  · rw [if_neg hp]
    dsimp only
    rw [if_neg hp, if_neg hp]
    obtain ⟨m1, m2, m3, _, m5, _, m7⟩ :=
      setCMI_proj { s with search_matches := searchLoop s (strUpper pattern.trim) }
        (if searchLoop s (strUpper pattern.trim) = [] then -1 else 0)
    refine ⟨by rw [m1]; exact searchLoop_eq_spec s _, by rw [searchLoop_eq_spec], ?_,
      m2, m3, m5⟩
    rw [m7, searchLoop_eq_spec]
    by_cases hm : searchSpecMatches s (strUpper pattern.trim) = []
    · rw [if_pos hm, if_pos (Or.inr hm)]
    · rw [if_neg hm, if_neg (by tauto)]

end Guqin

namespace Guqin

/-! ### Claim C6: match cycling -/

lemma setCMI_same {s : PTState} {v : Int} (he : v = s.current_match_index) :
    setCMI s v = s := by
  unfold setCMI
  rw [if_pos he]

lemma setCMI_cursor_moved {s : PTState} {v : Int} (hne : v ≠ s.current_match_index)
    (h0 : 0 ≤ v) (hlt : v < (s.search_matches.length : Int)) :
    (setCMI s v).cursor_row = (s.search_matches.getD v.toNat (0, 0)).1 ∧
    (setCMI s v).cursor_col = (s.search_matches.getD v.toNat (0, 0)).2 := by
  unfold setCMI watchCMI
  rw [if_neg hne]
  dsimp only
  rw [if_pos ⟨h0, hlt⟩]
  exact ⟨rfl, rfl⟩

/-- A table state with exactly one search match whose cursor sits away
from that match. -/
def cexPT : PTState :=
  { positions := ["七徽"], intervals := ["八度"],
    strings_data := [["C3"], [""], [""], [""], [""], [""], [""]],
    tuning := stdTuning, highlighted_notes := ∅,
    search_matches := [(0, 1)], current_match_index := 0,
    cursor_row := 5, cursor_col := 5 }

/-- C6 counterexample: with a single match the advanced index equals the
old one, so the reactive watcher does not fire: `next_match` succeeds
(returns true) but the cursor stays at (5,5) instead of relocating to the
newly indexed match cell (0,1). -/
theorem next_match_single_cex :
    (next_match cexPT).2 = true ∧
    (next_match cexPT).1.current_match_index = 0 ∧
    cexPT.search_matches.getD 0 (0, 0) = (0, 1) ∧
    (next_match cexPT).1.cursor_row = 5 ∧
    (next_match cexPT).1.cursor_col = 5 ∧
    ((5 : Nat), (5 : Nat)) ≠ ((0 : Nat), (1 : Nat)) :=
  ⟨rfl, rfl, rfl, rfl, rfl, by decide⟩

/-- C6 amended: on an empty match list `next_match`/`prev_match` return
false and change nothing; on n matches they return true and advance or
retreat the index cyclically modulo n; the cursor is relocated to the
newly indexed match exactly when the new index differs from the old one
(the change-driven watcher) — when they are equal (e.g. n = 1) the whole
state is unchanged. -/
theorem next_prev_match_amended (s : PTState) :
    (s.search_matches = [] → next_match s = (s, false) ∧ prev_match s = (s, false)) ∧
    (s.search_matches ≠ [] →
      (next_match s).2 = true ∧
      (prev_match s).2 = true ∧
      (next_match s).1.current_match_index =
        (s.current_match_index + 1) % (s.search_matches.length : Int) ∧
      (prev_match s).1.current_match_index =
        (s.current_match_index - 1) % (s.search_matches.length : Int) ∧
      (next_match s).1.search_matches = s.search_matches ∧
      (prev_match s).1.search_matches = s.search_matches ∧
      ((s.current_match_index + 1) % (s.search_matches.length : Int) ≠
          s.current_match_index →
        (next_match s).1.cursor_row =
          (s.search_matches.getD
            ((s.current_match_index + 1) % (s.search_matches.length : Int)).toNat (0, 0)).1 ∧
        (next_match s).1.cursor_col =
          (s.search_matches.getD
            ((s.current_match_index + 1) % (s.search_matches.length : Int)).toNat (0, 0)).2) ∧
      ((s.current_match_index + 1) % (s.search_matches.length : Int) =
          s.current_match_index →
        (next_match s).1 = s) ∧
      ((s.current_match_index - 1) % (s.search_matches.length : Int) ≠
          s.current_match_index →
        (prev_match s).1.cursor_row =
          (s.search_matches.getD
            ((s.current_match_index - 1) % (s.search_matches.length : Int)).toNat (0, 0)).1 ∧
        (prev_match s).1.cursor_col =
          (s.search_matches.getD
            ((s.current_match_index - 1) % (s.search_matches.length : Int)).toNat (0, 0)).2) ∧
      ((s.current_match_index - 1) % (s.search_matches.length : Int) =
          s.current_match_index →
        (prev_match s).1 = s)) := by
  constructor
  · intro he
    unfold next_match prev_match
    rw [if_pos he, if_pos he]
    exact ⟨rfl, rfl⟩
  · intro hne
    have hlen : 0 < s.search_matches.length := List.length_pos.mpr hne
    have hlz : ((s.search_matches.length : Int)) ≠ 0 := by exact_mod_cast hlen.ne'
    have hlp : (0 : Int) < (s.search_matches.length : Int) := by exact_mod_cast hlen
    unfold next_match prev_match
    rw [if_neg hne, if_neg hne]
    dsimp only
    refine ⟨rfl, rfl, (setCMI_proj s _).2.2.2.2.2.2, (setCMI_proj s _).2.2.2.2.2.2,
      (setCMI_proj s _).1, (setCMI_proj s _).1, ?_, ?_, ?_, ?_⟩
    · intro hv
      exact setCMI_cursor_moved hv (Int.emod_nonneg _ hlz) (Int.emod_lt_of_pos _ hlp)
    · intro hv
      exact setCMI_same hv
    · intro hv
      exact setCMI_cursor_moved hv (Int.emod_nonneg _ hlz) (Int.emod_lt_of_pos _ hlp)
    · intro hv
      exact setCMI_same hv

/-- A table state with two search matches, index on the first, cursor
parked away from both. -/
def wPT : PTState :=
  { positions := ["九徽"], intervals := ["纯五度"],
    strings_data := [["G2"], ["A2"], [""], [""], [""], [""], [""]],
    tuning := stdTuning, highlighted_notes := ∅,
    search_matches := [(0, 1), (0, 2)], current_match_index := 0,
    cursor_row := 9, cursor_col := 9 }

/-- C6 witness: with two matches and the index on the first, `next_match`
returns true, advances the index to 1 and relocates the cursor to the
second match cell (0,2). -/
theorem next_prev_match_amended_witness :
    wPT.search_matches ≠ [] ∧
    (next_match wPT).2 = true ∧
    (next_match wPT).1.current_match_index = 1 ∧
    (next_match wPT).1.cursor_row = 0 ∧
    (next_match wPT).1.cursor_col = 2 := by
  have h := (next_prev_match_amended wPT).2 (by decide)
  refine ⟨by decide, h.1, ?_, ?_, ?_⟩
  · rw [h.2.2.1]
    decide
  · rw [(h.2.2.2.2.2.2.1 (by decide)).1]
    decide
  · rw [(h.2.2.2.2.2.2.1 (by decide)).2]
    decide

end Guqin

namespace Guqin

/-! ### Claim C7: the retune command -/

/-- C7: the `retune` command with 7 valid pitch tokens does not rebuild
anything: `_execute_command` only sets the status line to the
under-development message (the rebuild is a `TODO` in the source), leaving
the calculator, both position tables (cells of the previous tuning
included) and their navigation state untouched; the `r` key binding
`action_retune` is the same stub. -/
theorem retune_stub (st : MainState) :
    execute_command st "retune C2 D2 F2 G2 A2 C3 D3" =
      ({ st with status_message := "变调功能开发中..." }, []) ∧
    (execute_command st "retune C2 D2 F2 G2 A2 C3 D3").1.calculator = st.calculator ∧
    (execute_command st "retune C2 D2 F2 G2 A2 C3 D3").1.stopped_table = st.stopped_table ∧
    (execute_command st "retune C2 D2 F2 G2 A2 C3 D3").1.harmonics_table = st.harmonics_table ∧
    action_retune st = { st with status_message := "变调功能开发中..." } :=
  ⟨rfl, rfl, rfl, rfl, rfl⟩

end Guqin
